import Mathlib

/-!
Verification of the ensemble-aggregation study's scoring and panel code.

We shallowly embed the relevant parts of the repository:

* `results.py` (`get_panel_data`, `get_best_result_table`): panel building,
  CRPSS skill computation, and best-result selection.  Pandas data frames are
  modelled as lists of records; a float `NaN` cell is modelled as `none` and a
  regular float value as `some q` with `q : ℚ`.  Pandas `.mean()` skips `NaN`
  values and returns `NaN` on an empty selection, which `colMean` mirrors.
  Float division by zero produces a non-finite value (`inf`/`nan`) in numpy;
  both non-finite classes are modelled by `none`.
* `BQNModels.py` (`BQNBaseModel.__init__`, `BQNBaseModel.get_results`,
  `BQNRandInitModel._get_architecture`): the default quantile-level grid, the
  cumulative-sum coefficient accumulation, the Bernstein-basis quantile
  reconstruction and the rank rescaling.
* `ss_1_ensemble.py` (`run_ensemble`): the per-network seeding discipline.
-/

/-! ## Score records (rows of the pickled evaluation data frames) -/

/-- A row of the `eval_{dataset}_{ens_method}.pkl` data frame loaded by
`get_panel_data`.  The columns used by the panel builder are `model`, `nn`,
`type`, `n_rep`, `n_ens`, and one numeric column per score name; the numeric
columns are modelled by the function `vals` (a missing/`NaN` cell is `none`). -/
structure ScoreRow where
  model : String
  nn : String
  type : String
  n_rep : ℕ
  n_ens : ℕ
  vals : String → Option ℚ

/-- A row of the data frame returned by `get_panel_data`
(columns `dataset, nn, metric, n_ens, agg, score`). -/
structure PanelRow where
  dataset : String
  nn : String
  metric : String
  n_ens : ℕ
  agg : String
  score : Option ℚ
deriving DecidableEq, Repr

/-! ## Float arithmetic on possibly-missing values

`none` models a non-finite float (`NaN`, or `inf` produced by a division by
zero).  Arithmetic on floats propagates non-finite operands, which the
following operations mirror on `ℚ`. -/

/-- Subtraction propagating missing values. -/
def osub : Option ℚ → Option ℚ → Option ℚ
  | some a, some b => some (a - b)
  | _, _ => none

/-- Multiplication propagating missing values. -/
def omul : Option ℚ → Option ℚ → Option ℚ
  | some a, some b => some (a * b)
  | _, _ => none

/-- Division propagating missing values; a zero denominator yields a
non-finite float in numpy (with a runtime warning, not an exception),
modelled here by `none`. -/
def qdiv : Option ℚ → Option ℚ → Option ℚ
  | some a, some b => if b = 0 then none else some (a / b)
  | _, _ => none

/-- Pandas `Series.mean()`: skips `NaN` entries; an empty (or all-`NaN`)
selection yields `NaN`. -/
def colMean (rows : List ScoreRow) (col : String) : Option ℚ :=
  let xs := rows.filterMap (fun r => r.vals col)
  if xs.isEmpty then none else some (xs.sum / xs.length)

/-! ## `results.get_panel_data` -/

/-- `results.py:54`: `df_sc = df_scores[df_scores["model"] == dataset]`. -/
def dfSc (dataFor : String → List ScoreRow) (dataset : String) : List ScoreRow :=
  (dataFor dataset).filter (fun r => r.model == dataset)

/-- `results.py:74`: `df_nn = df_sc[df_sc["nn"] == temp_nn]`. -/
def dfNN (df_sc : List ScoreRow) (temp_nn : String) : List ScoreRow :=
  df_sc.filter (fun r => r.nn == temp_nn)

/-- `results.py:61-64`: CRPSS is computed from the `crps` column. -/
def tempOut (temp_sr : String) : String :=
  if temp_sr == "crpss" then "crps" else temp_sr

/-- Python's `str.startswith`: the candidate's character sequence begins with
the given pattern's character sequence. -/
def strStartsWith (s pat : String) : Bool :=
  pat.data.isPrefixOf s.data

/-- `results.py:66-69`: the optimal score `s_opt` is `0` unless the dataset is
simulated (name starts with `"scen"`) and the score is not `a`/`w`, in which
case it is the mean of the `type == "ref"` rows. -/
def sOpt (df_sc : List ScoreRow) (dataset temp_sr : String) : Option ℚ :=
  if strStartsWith dataset "scen" && !(temp_sr == "a" || temp_sr == "w") then
    colMean (df_sc.filter (fun r => r.type == "ref")) (tempOut temp_sr)
  else some 0

/-- `results.py:98-102`: the reference score `s_ref` is the mean over the
individual members (`type == "ind"`) with `n_rep <= i_ens`. -/
def sRef (df_nn : List ScoreRow) (i_ens : ℕ) (col : String) : Option ℚ :=
  colMean (df_nn.filter (fun r => decide (r.n_rep ≤ i_ens) && r.type == "ind")) col

/-- `results.py:110-114`: the aggregated score is the mean over the rows with
`n_ens == i_ens` and `type == temp_agg`. -/
def sAgg (df_nn : List ScoreRow) (i_ens : ℕ) (temp_agg col : String) : Option ℚ :=
  colMean (df_nn.filter (fun r => r.n_ens == i_ens && r.type == temp_agg)) col

/-- `results.py:79-87`: the `continue` conditions skipping (metric, agg)
combinations. -/
def skipCell (temp_sr temp_agg : String) : Bool :=
  (temp_sr == "crpss" && temp_agg == "ens") ||
  (temp_sr == "crpss" && temp_agg == "opt") ||
  (temp_sr == "a" && temp_agg == "opt") ||
  (temp_sr == "w" && temp_agg == "opt")

/-- `results.py:104-129`: the `score` entry of one panel row. -/
def cellScore (df_sc : List ScoreRow) (dataset temp_sr temp_nn : String)
    (i_ens : ℕ) (temp_agg : String) : Option ℚ :=
  let col := tempOut temp_sr
  let df_nn := dfNN df_sc temp_nn
  if temp_agg == "ens" then sRef df_nn i_ens col
  else if temp_agg == "opt" then sOpt df_sc dataset temp_sr
  else
    let raw := sAgg df_nn i_ens temp_agg col
    let s1 :=
      if temp_sr == "crpss" then
        qdiv (omul (some 100) (osub (sRef df_nn i_ens col) raw))
          (osub (sRef df_nn i_ens col) (sOpt df_sc dataset temp_sr))
      else raw
    if temp_sr == "w" then
      omul (some 100) (osub (omul (some (i_ens : ℚ)) s1) (some 1))
    else s1

/-- `results.py:90-96,131-137`: one appended panel row. -/
def panelCell (df_sc : List ScoreRow) (dataset temp_sr temp_nn : String)
    (i_ens : ℕ) (temp_agg : String) : PanelRow :=
  ⟨dataset, temp_nn, temp_sr, i_ens, temp_agg,
    cellScore df_sc dataset temp_sr temp_nn i_ens temp_agg⟩

/-- `results.get_panel_data`: builds the panel data frame over datasets,
scores, network types, ensemble sizes and aggregation methods.  The function
`dataFor` models the per-dataset pickle load of `eval_{dataset}_...pkl`. -/
def get_panel_data (dataFor : String → List ScoreRow) (dataset_ls : List String)
    (score_vec nn_vec : List String) (n_ens_vec : List ℕ)
    (agg_meths : List String) : List PanelRow :=
  dataset_ls.flatMap fun dataset =>
    score_vec.flatMap fun temp_sr =>
      nn_vec.flatMap fun temp_nn =>
        n_ens_vec.flatMap fun i_ens =>
          (["opt", "ens"] ++ agg_meths).filterMap fun temp_agg =>
            if skipCell temp_sr temp_agg then none
            else some (panelCell (dfSc dataFor dataset) dataset temp_sr temp_nn
              i_ens temp_agg)

/-! ## `results.get_best_result_table` -/

/-- The numeric value of a score cell (only used on cells already checked to
be non-missing, mirroring the `isna` guard in `get_best_result_table`). -/
def scoreVal (o : Option ℚ) : ℚ := o.getD 0

/-- `results.py:184-194`: the filtering applied before the best-row selection:
`agg` among the aggregation methods, metric `crps`, network type `nn`. -/
def panelFiltered (df : List PanelRow) (agg_meths : List String)
    (nn : String) : List PanelRow :=
  ((df.filter (fun r => agg_meths.contains r.agg)).filter
    (fun r => r.metric == "crps")).filter (fun r => r.nn == nn)

/-- One step of the running minimum kept by `idxmin` (the first row attaining
the minimal score wins, as for pandas `idxmin`). -/
def minStep (acc : Option PanelRow) (r : PanelRow) : Option PanelRow :=
  match acc with
  | none => some r
  | some b => if scoreVal r.score < scoreVal b.score then some r else some b

/-- `df_nn.groupby("dataset").score.idxmin()` for one dataset group: the first
row of the group attaining the minimal score. -/
def argminRow (l : List PanelRow) : Option PanelRow := l.foldl minStep none

/-- `results.get_best_result_table`, selection core for one network type and
one ensemble method's panel: filter to the aggregation methods and the `crps`
metric, bail out (`break`) when any score is missing, then pick the best row
per dataset.  The surrounding per-`ens_method` loop, the pickle loading and
the final column join are plumbing around this selection.  Pandas `groupby`
enumerates the dataset groups (their enumeration order is immaterial to the
selection); we enumerate them in first-occurrence order. -/
def get_best_result_table (df : List PanelRow) (agg_meths : List String)
    (nn : String) : Option (List PanelRow) :=
  let df_nn := panelFiltered df agg_meths nn
  if df_nn.any (fun r => r.score.isNone) then none
  else some (((df_nn.map (fun r => r.dataset)).dedup).filterMap
    (fun d => argminRow (df_nn.filter (fun r => r.dataset == d))))

/-! ## `BQNModels.BQNBaseModel`: quantile levels, reconstruction, ranks -/

/-- `np.arange(start, stop, step)` for a positive rational step: the values
`start + k * step` for `k = 0, …, ⌈(stop - start) / step⌉ - 1`. -/
def npArange (start stop step : ℚ) : List ℚ :=
  (List.range (⌈(stop - start) / step⌉.toNat)).map (fun k => start + k * step)

/-- `BQNModels.py:35-37`: the default quantile-level grid
`np.arange(start=1/100, stop=1 + 1/100, step=1/100)`. -/
def defaultQLevels : List ℚ := npArange (1 / 100) (1 + 1 / 100) (1 / 100)

/-- `np.cumsum` of the predicted coefficient vector (`BQNModels.py:206`):
`npCumsum raw j` is the `j`-th accumulated Bernstein coefficient. -/
def npCumsum (raw : ℕ → ℚ) (j : ℕ) : ℚ := ∑ k in Finset.range (j + 1), raw k

/-- Modelled from the spec: `fn_eval.bern_quants` (the module `fn_eval` is not
part of the sources) evaluates, per §4.1, "the degree-`p` Bernstein basis at
each target quantile level" and takes "the dot product with the accumulated
coefficients": the basis weight of coefficient `j` at level `t` is the
binomial probability `C(p,j) t^j (1-t)^(p-j)` (`scipy.stats.binom.pmf` in
`BQNModels.py:67-76`). -/
def bern_quants (p : ℕ) (α : ℕ → ℚ) (t : ℚ) : ℚ :=
  ∑ j in Finset.range (p + 1), α j * ((p.choose j : ℚ) * t ^ j * (1 - t) ^ (p - j))

/-- `BQNModels.py:204-211` (`get_results`): accumulate the raw coefficient
increments with `np.cumsum`, then evaluate the Bernstein quantile forecast at
the quantile levels. -/
def bqn_forecast (p : ℕ) (raw : ℕ → ℚ) (levels : List ℚ) : List ℚ :=
  levels.map (fun t => bern_quants p (npCumsum raw) t)

/-- `BQNModels.py:221-225` (`get_results`): rescale a raw rank on
`[0, n_members]` by `(n_ens + 1) / (n_members + 1)` and round up with
`np.ceil`. -/
def rescaleRank (n_ens n_members : ℕ) (r : ℚ) : ℤ :=
  ⌈r * ((n_ens : ℚ) + 1) / ((n_members : ℚ) + 1)⌉

/-! ## `ss_1_ensemble.run_ensemble`: seeding -/

/-- `ss_1_ensemble.py:61`: the seed `123 + 10 * i_scenario + 100 * i_sim`. -/
def ensembleSeed (i_scenario i_sim : ℕ) : ℕ :=
  123 + 10 * i_scenario + 100 * i_sim

/-- `ss_1_ensemble.py:56-61` (`run_ensemble`): for each network variant in
`nn_vec`, `np.random.seed` is called with `123 + 10 * i_scenario +
100 * i_sim` before training the members; the seed expression does not involve
the loop variable `temp_nn`.  The returned list pairs each network variant
with the seed set for it. -/
def runEnsembleSeeds (i_scenario i_sim : ℕ) (nn_vec : List String) :
    List (String × ℕ) :=
  nn_vec.map (fun temp_nn => (temp_nn, 123 + 10 * i_scenario + 100 * i_sim))

/-! ## Vincentization (spec-modelled) -/

/-- Modelled from the spec: the aggregation module is not part of the sources.
Per §4.2, a Vincentization aggregator combines the members' quantile functions
`Q_k` into `Q_agg(p) = a + Σ_k w_k * Q_k(p)` for every quantile level `p`;
a quantile forecast is modelled as its quantile function `ℚ → ℚ`. -/
def vincentize (a : ℚ) (w : List ℚ) (members : List (ℚ → ℚ)) : ℚ → ℚ :=
  fun p => a + (List.zipWith (fun wk Qk => wk * Qk p) w members).sum

/-! ## Concrete evaluation data used to instantiate the theorems -/

/-- A score row whose only populated numeric column is `crps`. -/
def mkRow (model nn ty : String) (n_rep n_ens : ℕ) (crps : ℚ) : ScoreRow :=
  ⟨model, nn, ty, n_rep, n_ens, fun c => if c == "crps" then some crps else none⟩

/-- A simulated dataset (`scen_1`): one optimal-reference row (mean 1), one
individual member row (mean 3), one aggregated `lp` row (mean 2). -/
def dataForScen : String → List ScoreRow := fun _ =>
  [mkRow "scen_1" "drn" "ref" 0 0 1,
   mkRow "scen_1" "drn" "ind" 1 0 3,
   mkRow "scen_1" "drn" "lp" 0 2 2]

/-- A simulated dataset whose individual-member mean CRPS equals the
optimal-reference mean CRPS (both 1): the CRPSS denominator is zero. -/
def dataForZero : String → List ScoreRow := fun _ =>
  [mkRow "scen_1" "drn" "ref" 0 0 1,
   mkRow "scen_1" "drn" "ind" 1 0 1,
   mkRow "scen_1" "drn" "lp" 0 2 2]

/-- An empirical dataset (`uci`, name not starting with `scen`) that does
carry `type == "ref"` rows with non-zero mean. -/
def dataForUci : String → List ScoreRow := fun _ =>
  [mkRow "uci" "drn" "ref" 0 0 1,
   mkRow "uci" "drn" "ind" 1 0 3,
   mkRow "uci" "drn" "lp" 0 2 2]

/-- The CRPSS value asserted by the claim's words: `100 * (mean reference
CRPS − mean candidate CRPS) / (mean reference CRPS − mean optimal CRPS)`,
where the reference is the mean score of the individual ensemble members and
the optimal is the mean score of the `type == "ref"` rows.  (Stated from the
specification sentence, to be compared with `get_panel_data`.) -/
def claimedCrpss (dataFor : String → List ScoreRow) (dataset nn : String)
    (i_ens : ℕ) (agg : String) : Option ℚ :=
  let df_sc := dfSc dataFor dataset
  let df_nn := dfNN df_sc nn
  qdiv
    (omul (some 100)
      (osub (sRef df_nn i_ens "crps") (sAgg df_nn i_ens agg "crps")))
    (osub (sRef df_nn i_ens "crps")
      (colMean (df_sc.filter (fun r => r.type == "ref")) "crps"))

/-! ## Membership in the panel -/

/-- A row is in the panel iff it is the cell of some loop iteration that is
not skipped. -/
theorem mem_get_panel_data {dataFor : String → List ScoreRow}
    {dataset_ls score_vec nn_vec : List String} {n_ens_vec : List ℕ}
    {agg_meths : List String} {r : PanelRow} :
    r ∈ get_panel_data dataFor dataset_ls score_vec nn_vec n_ens_vec agg_meths ↔
    ∃ dataset ∈ dataset_ls, ∃ temp_sr ∈ score_vec, ∃ temp_nn ∈ nn_vec,
      ∃ i_ens ∈ n_ens_vec, ∃ temp_agg ∈ ["opt", "ens"] ++ agg_meths,
        skipCell temp_sr temp_agg = false ∧
        r = panelCell (dfSc dataFor dataset) dataset temp_sr temp_nn i_ens
          temp_agg := by
  simp only [get_panel_data, List.mem_flatMap, List.mem_filterMap]
  constructor
  · rintro ⟨ds, hds, sr, hsr, nn, hnn, ie, hie, ag, hag, hr⟩
    by_cases h : skipCell sr ag = true
    · rw [if_pos h] at hr; exact absurd hr (by simp)
    · rw [if_neg h] at hr
      refine ⟨ds, hds, sr, hsr, nn, hnn, ie, hie, ag, hag, ?_, ?_⟩
      · simpa using h
      · exact (Option.some.inj hr).symm
  · rintro ⟨ds, hds, sr, hsr, nn, hnn, ie, hie, ag, hag, hskip, rfl⟩
    refine ⟨ds, hds, sr, hsr, nn, hnn, ie, hie, ag, hag, ?_⟩
    rw [if_neg (by simp [hskip])]

/-- C10: for all inputs, the data frame returned by `get_panel_data` contains
no row pairing metric `"crpss"` with aggregation method `"ens"` or `"opt"`,
and no row pairing metric `"a"` or `"w"` with aggregation method `"opt"`
(the `continue` statements skip exactly these combinations). -/
theorem panel_no_forbidden_metric_agg_pairs
    (dataFor : String → List ScoreRow)
    (dataset_ls score_vec nn_vec : List String) (n_ens_vec : List ℕ)
    (agg_meths : List String) (r : PanelRow)
    (hr : r ∈ get_panel_data dataFor dataset_ls score_vec nn_vec n_ens_vec
      agg_meths) :
    ¬(r.metric = "crpss" ∧ (r.agg = "ens" ∨ r.agg = "opt")) ∧
    ¬((r.metric = "a" ∨ r.metric = "w") ∧ r.agg = "opt") := by
  rw [mem_get_panel_data] at hr
  obtain ⟨ds, -, sr, -, nn, -, ie, -, ag, -, hskip, rfl⟩ := hr
  simp only [panelCell] at *
  constructor
  · rintro ⟨hm, hag2 | hag2⟩ <;> subst hm <;> subst hag2 <;>
      exact absurd hskip (by decide)
  · rintro ⟨hm | hm, hag2⟩ <;> subst hm <;> subst hag2 <;>
      exact absurd hskip (by decide)

/-- C10 witness: a concrete panel containing only admissible rows. -/
theorem panel_no_forbidden_metric_agg_pairs_witness :
    ¬((⟨"scen_1", "drn", "crpss", 2, "lp", some 50⟩ : PanelRow).metric = "crpss" ∧
      ((⟨"scen_1", "drn", "crpss", 2, "lp", some 50⟩ : PanelRow).agg = "ens" ∨
       (⟨"scen_1", "drn", "crpss", 2, "lp", some 50⟩ : PanelRow).agg = "opt")) ∧
    ¬(((⟨"scen_1", "drn", "crpss", 2, "lp", some 50⟩ : PanelRow).metric = "a" ∨
       (⟨"scen_1", "drn", "crpss", 2, "lp", some 50⟩ : PanelRow).metric = "w") ∧
      (⟨"scen_1", "drn", "crpss", 2, "lp", some 50⟩ : PanelRow).agg = "opt") :=
  panel_no_forbidden_metric_agg_pairs dataForScen ["scen_1"] ["crpss"] ["drn"]
    [2] ["lp"] _ (by with_unfolding_all decide)

/-- C3 (amended): for every dataset whose name does not start with `"scen"`
(optimal reference unavailable), every `opt` row emitted by `get_panel_data`
carries the fabricated score `0` (`s_opt` is initialized to `0` and never
overwritten), not a missing-value sentinel. -/
theorem opt_rows_zero_for_nonscen
    (dataFor : String → List ScoreRow)
    (dataset_ls score_vec nn_vec : List String) (n_ens_vec : List ℕ)
    (agg_meths : List String) (r : PanelRow)
    (hr : r ∈ get_panel_data dataFor dataset_ls score_vec nn_vec n_ens_vec
      agg_meths)
    (hns : strStartsWith r.dataset "scen" = false)
    (hagg : r.agg = "opt") :
    r.score = some 0 := by
  rw [mem_get_panel_data] at hr
  obtain ⟨ds, -, sr, -, nn, -, ie, -, ag, -, hskip, rfl⟩ := hr
  simp only [panelCell] at hns hagg ⊢
  subst hagg
  simp [cellScore, sOpt, hns]

/-- C3 witness: a concrete empirical-dataset `opt` row evaluates to score 0. -/
theorem opt_rows_zero_for_nonscen_witness :
    (⟨"uci", "drn", "crps", 2, "opt", some 0⟩ : PanelRow).score = some 0 :=
  opt_rows_zero_for_nonscen dataForUci ["uci"] ["crps"] ["drn"] [2] ["lp"] _
    (by with_unfolding_all decide) (by decide) (by decide)

/-- C3 counterexample: on a concrete empirical dataset, the claim as stated
(`opt` cells of non-`scen` datasets propagate the "unavailable" sentinel,
modelled by `none`) is false: the `opt` row carries the fabricated `some 0`. -/
theorem opt_rows_sentinel_counterexample :
    ¬(∀ r ∈ get_panel_data dataForUci ["uci"] ["crps"] ["drn"] [2] ["lp"],
        strStartsWith r.dataset "scen" = false → r.agg = "opt" →
          r.score = none) := by
  with_unfolding_all decide

/-- C2 (amended): for every dataset whose name starts with `"scen"` and every
emitted `crpss` row whose reference, candidate and optimal means are defined
with a non-zero denominator, the score equals
`100 * (reference − candidate) / (reference − optimal)`, where the reference
is the mean CRPS of the individual ensemble members (`type == "ind"`,
`n_rep ≤ n_ens`) and the optimal is the mean CRPS of the `type == "ref"`
rows. -/
theorem crpss_skill_formula
    (dataFor : String → List ScoreRow)
    (dataset_ls score_vec nn_vec : List String) (n_ens_vec : List ℕ)
    (agg_meths : List String) (r : PanelRow)
    (hr : r ∈ get_panel_data dataFor dataset_ls score_vec nn_vec n_ens_vec
      agg_meths)
    (hm : r.metric = "crpss")
    (hscen : strStartsWith r.dataset "scen" = true)
    (ref cand opt : ℚ)
    (href : sRef (dfNN (dfSc dataFor r.dataset) r.nn) r.n_ens "crps" = some ref)
    (hcand : sAgg (dfNN (dfSc dataFor r.dataset) r.nn) r.n_ens r.agg "crps" =
      some cand)
    (hopt : colMean ((dfSc dataFor r.dataset).filter (fun x => x.type == "ref"))
      "crps" = some opt)
    (hne : ref - opt ≠ 0) :
    r.score = some (100 * (ref - cand) / (ref - opt)) := by
  rw [mem_get_panel_data] at hr
  obtain ⟨ds, -, sr, -, nn, -, ie, -, ag, -, hskip, rfl⟩ := hr
  simp only [panelCell] at hm hscen href hcand hopt ⊢
  subst hm
  have hag1 : (ag == "ens") = false := by
    by_contra h
    rw [Bool.not_eq_false, beq_iff_eq] at h
    subst h
    exact absurd hskip (by decide)
  have hag2 : (ag == "opt") = false := by
    by_contra h
    rw [Bool.not_eq_false, beq_iff_eq] at h
    subst h
    exact absurd hskip (by decide)
  have hcell : cellScore (dfSc dataFor ds) ds "crpss" nn ie ag =
      qdiv (omul (some 100) (osub (sRef (dfNN (dfSc dataFor ds) nn) ie "crps")
        (sAgg (dfNN (dfSc dataFor ds) nn) ie ag "crps")))
        (osub (sRef (dfNN (dfSc dataFor ds) nn) ie "crps")
          (sOpt (dfSc dataFor ds) ds "crpss")) := by
    simp [cellScore, tempOut, hag1, hag2]
  have hsopt : sOpt (dfSc dataFor ds) ds "crpss" = some opt := by
    rw [sOpt, if_pos (by rw [hscen]; decide)]
    simpa [tempOut] using hopt
  rw [hcell, href, hcand, hsopt]
  simp [osub, omul, qdiv, hne]

/-- C2 witness: on a concrete simulated dataset (reference mean 3, candidate
mean 2, optimal mean 1) the emitted skill is `100 * (3 - 2) / (3 - 1)`. -/
theorem crpss_skill_formula_witness :
    (⟨"scen_1", "drn", "crpss", 2, "lp", some 50⟩ : PanelRow).score =
      some (100 * ((3 : ℚ) - 2) / (3 - 1)) :=
  crpss_skill_formula dataForScen ["scen_1"] ["crpss"] ["drn"] [2] ["lp"] _
    (by with_unfolding_all decide) (by decide) (by decide) 3 2 1
    (by with_unfolding_all decide) (by with_unfolding_all decide)
    (by with_unfolding_all decide) (by with_unfolding_all decide)

/-- C2 counterexample: for a dataset not named `scen...` but carrying
`type == "ref"` rows, the emitted CRPSS (denominator `3 - 0`, using the
hard-coded optimal `0`) differs from the claimed formula (denominator
`3 - 1`, using the mean of the `"ref"` rows): `100/3` versus `50`. -/
theorem crpss_skill_formula_counterexample :
    claimedCrpss dataForUci "uci" "drn" 2 "lp" = some 50 ∧
    (get_panel_data dataForUci ["uci"] ["crpss"] ["drn"] [2] ["lp"]).map
      PanelRow.score = [some (100 / 3)] ∧
    ¬(∀ r ∈ get_panel_data dataForUci ["uci"] ["crpss"] ["drn"] [2] ["lp"],
        r.score = claimedCrpss dataForUci r.dataset r.nn r.n_ens r.agg) := by
  refine ⟨by with_unfolding_all decide, by with_unfolding_all decide, ?_⟩
  with_unfolding_all decide

/-- C1: evaluation at the failing input.  On a panel cell whose reference mean
CRPS equals the optimal mean CRPS (both `1`, so the CRPSS denominator
`s_ref - s_opt` is `0`), `get_panel_data` does not fail: it performs the
division anyway (numpy emits a non-finite float, modelled by `none`) and still
appends the `crpss` row to the returned data frame. -/
theorem crpss_zero_denominator_row_still_emitted :
    osub (sRef (dfNN (dfSc dataForZero "scen_1") "drn") 2 "crps")
      (sOpt (dfSc dataForZero "scen_1") "scen_1" "crpss") = some 0 ∧
    get_panel_data dataForZero ["scen_1"] ["crpss"] ["drn"] [2] ["lp"] =
      [⟨"scen_1", "drn", "crpss", 2, "lp", none⟩] := by
  exact ⟨by with_unfolding_all decide, by with_unfolding_all decide⟩

/-- C9: in `run_ensemble`, the seed paired with every network variant is
`123 + 10 * i_scenario + 100 * i_sim`, a function of the (scenario, replicate)
pair alone: any two runs on the same pair, whatever the network variant list,
seed the generator identically. -/
theorem run_ensemble_seed_deterministic
    (i_scenario i_sim : ℕ) (nn_vec : List String) (pr : String × ℕ)
    (hpr : pr ∈ runEnsembleSeeds i_scenario i_sim nn_vec) :
    pr.2 = ensembleSeed i_scenario i_sim := by
  simp only [runEnsembleSeeds, List.mem_map] at hpr
  obtain ⟨nn, -, rfl⟩ := hpr
  rfl

/-- C9 witness: scenario 1, replicate 2 seeds every network with 333. -/
theorem run_ensemble_seed_deterministic_witness :
    (("drn", 333) : String × ℕ).2 = ensembleSeed 1 2 :=
  run_ensemble_seed_deterministic 1 2 ["drn", "bqn"] ("drn", 333) (by decide)

/-- C5: rescaling raw ranks in `[0, n_members]` by the positive factor
`(n_ens + 1) / (n_members + 1)` and rounding with `np.ceil` preserves the
relative ordering of the ranks. -/
theorem rescale_rank_monotone (n_ens n_members : ℕ) (r1 r2 : ℚ)
    (h0 : 0 ≤ r1) (h12 : r1 ≤ r2) (h2 : r2 ≤ (n_members : ℚ)) :
    rescaleRank n_ens n_members r1 ≤ rescaleRank n_ens n_members r2 := by
  apply Int.ceil_le_ceil
  gcongr

/-- C5 witness: ranks 1 ≤ 7 on 10 members, rescaled to 5 bins, stay ordered. -/
theorem rescale_rank_monotone_witness :
    rescaleRank 5 10 1 ≤ rescaleRank 5 10 7 :=
  rescale_rank_monotone 5 10 1 7 (by norm_num) (by norm_num) (by norm_num)

/-- C7 (amended): the default quantile grid has exactly 100 levels, is
equidistant with step `1/100`, includes the median `1/2`, and its levels lie
in the half-open interval `(0, 1]`: the largest level equals `1`, so the grid
is not contained in the open interval `(0, 1)`. -/
theorem default_q_levels_grid :
    defaultQLevels.length = 100 ∧
    List.zipWith (fun a b => b - a) defaultQLevels defaultQLevels.tail =
      List.replicate 99 (1 / 100) ∧
    (1 / 2 : ℚ) ∈ defaultQLevels ∧
    (∀ x ∈ defaultQLevels, 0 < x ∧ x ≤ 1) ∧
    (1 : ℚ) ∈ defaultQLevels := by
  refine ⟨?_, ?_, ?_, ?_, ?_⟩ <;> with_unfolding_all decide

/-- C7 counterexample: the claim that all default levels lie strictly inside
the open interval `(0, 1)` is false: the level `1` belongs to the grid. -/
theorem default_q_levels_counterexample :
    ¬(∀ x ∈ defaultQLevels, 0 < x ∧ x < 1) := by
  with_unfolding_all decide

/-- C6: aggregating a single quantile forecast (`K = 1`) with a fixed-weight
Vincentization variant is the identity: with the intercept fixed at `0` and
any weight vector of length 1 satisfying the sum-to-one constraint (which
forces the single weight to be `1`, the fixed weight `1/K` for `K = 1`),
`aggregate [f] = f`. -/
theorem vincentize_single_member_identity (f : ℚ → ℚ) (w : List ℚ)
    (hlen : w.length = 1) (hsum : w.sum = 1) :
    vincentize 0 w [f] = f := by
  obtain ⟨c, rfl⟩ := List.length_eq_one.mp hlen
  simp only [List.sum_cons, List.sum_nil, add_zero] at hsum
  subst hsum
  funext p
  simp [vincentize]

/-- C6 witness: the identity forecast aggregated alone stays itself. -/
theorem vincentize_single_member_identity_witness :
    vincentize 0 [1] [fun p => p + 3] = (fun p => p + 3) :=
  vincentize_single_member_identity (fun p => p + 3) [1] (by decide)
    (by norm_num)

/-- The running minimum kept by `minStep` returns the first row attaining the
minimal score among the start row and the traversed rows. -/
theorem foldl_minStep_spec (l : List PanelRow) (b0 : PanelRow) :
    ∃ b, l.foldl minStep (some b0) = some b ∧ (b = b0 ∨ b ∈ l) ∧
      scoreVal b.score ≤ scoreVal b0.score ∧
      ∀ x ∈ l, scoreVal b.score ≤ scoreVal x.score := by
  induction l generalizing b0 with
  | nil => exact ⟨b0, rfl, Or.inl rfl, le_refl _, by simp⟩
  | cons y ys ih =>
    simp only [List.foldl_cons]
    by_cases h : scoreVal y.score < scoreVal b0.score
    · obtain ⟨b, hfold, hmem, hle, hall⟩ := ih y
      rw [show minStep (some b0) y = some y from by simp [minStep, h]]
      refine ⟨b, hfold, ?_, hle.trans h.le, ?_⟩
      · rcases hmem with rfl | hm
        · exact Or.inr (List.mem_cons_self _ _)
        · exact Or.inr (List.mem_cons_of_mem _ hm)
      · intro x hx
        rcases List.mem_cons.mp hx with rfl | hm
        · exact hle
        · exact hall x hm
    · obtain ⟨b, hfold, hmem, hle, hall⟩ := ih b0
      rw [show minStep (some b0) y = some b0 from by simp [minStep, h]]
      refine ⟨b, hfold, ?_, hle, ?_⟩
      · rcases hmem with rfl | hm
        · exact Or.inl rfl
        · exact Or.inr (List.mem_cons_of_mem _ hm)
      · intro x hx
        rcases List.mem_cons.mp hx with rfl | hm
        · exact hle.trans (not_lt.mp h)
        · exact hall x hm

/-- `argminRow` returns a member of the list attaining the minimal score. -/
theorem argminRow_spec (l : List PanelRow) (b : PanelRow)
    (hb : argminRow l = some b) :
    b ∈ l ∧ ∀ x ∈ l, scoreVal b.score ≤ scoreVal x.score := by
  cases l with
  | nil => simp [argminRow] at hb
  | cons y ys =>
    obtain ⟨b2, hfold, hmem, hle, hall⟩ := foldl_minStep_spec ys y
    have : argminRow (y :: ys) = some b2 := by
      simp only [argminRow, List.foldl_cons]
      exact hfold
    rw [this] at hb
    obtain rfl := Option.some.inj hb
    constructor
    · rcases hmem with rfl | hm
      · exact List.mem_cons_self _ _
      · exact List.mem_cons_of_mem _ hm
    · intro x hx
      rcases List.mem_cons.mp hx with rfl | hm
      · exact hle
      · exact hall x hm

/-- `argminRow` of a non-empty list succeeds. -/
theorem argminRow_ne_none (l : List PanelRow) (hl : l ≠ []) :
    ∃ b, argminRow l = some b := by
  cases l with
  | nil => exact absurd rfl hl
  | cons y ys =>
    obtain ⟨b, hfold, -⟩ := foldl_minStep_spec ys y
    refine ⟨b, ?_⟩
    simp only [argminRow, List.foldl_cons]
    exact hfold

/-- C8: when no CRPS score of the filtered panel is missing,
`get_best_result_table` succeeds and selects, per dataset, a row of the
filtered panel (metric `crps`, aggregation among the considered methods, the
given network type) attaining the minimal score over all aggregation methods
and ensemble sizes of that dataset; every dataset of the filtered panel is
represented, and the selected rows report their own score, aggregation method
and ensemble size. -/
theorem get_best_result_table_argmin (df : List PanelRow)
    (agg_meths : List String) (nn : String) (rs : List PanelRow)
    (hrs : get_best_result_table df agg_meths nn = some rs) :
    (∀ rr ∈ panelFiltered df agg_meths nn, rr.score.isSome = true) ∧
    (∀ r ∈ rs, r ∈ panelFiltered df agg_meths nn ∧
      ∀ rr ∈ panelFiltered df agg_meths nn, rr.dataset = r.dataset →
        scoreVal r.score ≤ scoreVal rr.score) ∧
    (∀ rr ∈ panelFiltered df agg_meths nn, ∃ r ∈ rs, r.dataset = rr.dataset) := by
  rw [get_best_result_table] at hrs
  by_cases h : (panelFiltered df agg_meths nn).any (fun r => r.score.isNone) = true
  · rw [if_pos h] at hrs; exact absurd hrs (by simp)
  · rw [if_neg h] at hrs
    have hrs2 : rs = ((panelFiltered df agg_meths nn).map
        (fun r => r.dataset)).dedup.filterMap
        (fun d => argminRow ((panelFiltered df agg_meths nn).filter
          (fun r => r.dataset == d))) := (Option.some.inj hrs).symm
    refine ⟨?_, ?_, ?_⟩
    · intro rr hrr
      rw [List.any_eq_true] at h
      push_neg at h
      have := h rr hrr
      cases hsc : rr.score with
      | none => rw [hsc] at this; exact absurd rfl this
      | some q => rfl
    · intro r hr
      rw [hrs2, List.mem_filterMap] at hr
      obtain ⟨d, hd, hmin⟩ := hr
      obtain ⟨hmem, hall⟩ := argminRow_spec _ _ hmin
      have hrd : r.dataset = d := by
        have h2 := (List.mem_filter.mp hmem).2
        simpa using h2
      refine ⟨List.mem_of_mem_filter hmem, ?_⟩
      intro rr hrr hrrd
      apply hall
      rw [List.mem_filter]
      refine ⟨hrr, ?_⟩
      rw [hrrd, hrd]
      simp
    · intro rr hrr
      have hd : rr.dataset ∈ ((panelFiltered df agg_meths nn).map
          (fun r => r.dataset)).dedup :=
        List.mem_dedup.mpr (List.mem_map_of_mem _ hrr)
      have hne : (panelFiltered df agg_meths nn).filter
          (fun r => r.dataset == rr.dataset) ≠ [] := by
        intro hnil
        have : rr ∈ (panelFiltered df agg_meths nn).filter
            (fun r => r.dataset == rr.dataset) :=
          List.mem_filter.mpr ⟨hrr, by simp⟩
        rw [hnil] at this
        exact absurd this (by simp)
      obtain ⟨b, hb⟩ := argminRow_ne_none _ hne
      refine ⟨b, ?_, ?_⟩
      · rw [hrs2, List.mem_filterMap]
        exact ⟨rr.dataset, hd, hb⟩
      · have := (argminRow_spec _ _ hb).1
        have h2 := (List.mem_filter.mp this).2
        simpa using h2

/-- C8 witness: on a concrete three-row panel of one dataset, the selection
returns the `vi`, `n_ens = 4` row with the minimal score 1. -/
theorem get_best_result_table_argmin_witness :
    (∀ rr ∈ panelFiltered
        [(⟨"d1", "drn", "crps", 2, "lp", some 3⟩ : PanelRow),
         ⟨"d1", "drn", "crps", 4, "vi", some 1⟩,
         ⟨"d1", "drn", "crps", 2, "vi", some 2⟩] ["lp", "vi"] "drn",
      rr.score.isSome = true) ∧
    (∀ r ∈ [(⟨"d1", "drn", "crps", 4, "vi", some 1⟩ : PanelRow)],
      r ∈ panelFiltered
        [(⟨"d1", "drn", "crps", 2, "lp", some 3⟩ : PanelRow),
         ⟨"d1", "drn", "crps", 4, "vi", some 1⟩,
         ⟨"d1", "drn", "crps", 2, "vi", some 2⟩] ["lp", "vi"] "drn" ∧
      ∀ rr ∈ panelFiltered
        [(⟨"d1", "drn", "crps", 2, "lp", some 3⟩ : PanelRow),
         ⟨"d1", "drn", "crps", 4, "vi", some 1⟩,
         ⟨"d1", "drn", "crps", 2, "vi", some 2⟩] ["lp", "vi"] "drn",
        rr.dataset = r.dataset → scoreVal r.score ≤ scoreVal rr.score) ∧
    (∀ rr ∈ panelFiltered
        [(⟨"d1", "drn", "crps", 2, "lp", some 3⟩ : PanelRow),
         ⟨"d1", "drn", "crps", 4, "vi", some 1⟩,
         ⟨"d1", "drn", "crps", 2, "vi", some 2⟩] ["lp", "vi"] "drn",
      ∃ r ∈ [(⟨"d1", "drn", "crps", 4, "vi", some 1⟩ : PanelRow)],
        r.dataset = rr.dataset) :=
  get_best_result_table_argmin
    [⟨"d1", "drn", "crps", 2, "lp", some 3⟩,
     ⟨"d1", "drn", "crps", 4, "vi", some 1⟩,
     ⟨"d1", "drn", "crps", 2, "vi", some 2⟩] ["lp", "vi"] "drn"
    [⟨"d1", "drn", "crps", 4, "vi", some 1⟩] (by with_unfolding_all decide)

/-! ## Monotonicity of the BQN quantile reconstruction -/

/-- Evaluation of the Mathlib Bernstein basis polynomial: the binomial
probability weight used by the reconstruction. -/
theorem bernstein_eval (n ν : ℕ) (x : ℝ) :
    (bernsteinPolynomial ℝ n ν).eval x =
      (n.choose ν : ℝ) * x ^ ν * (1 - x) ^ (n - ν) := by
  simp [bernsteinPolynomial]

/-- The Bernstein basis is non-negative on the unit interval. -/
theorem bernstein_eval_nonneg (n ν : ℕ) {x : ℝ} (h0 : 0 ≤ x) (h1 : x ≤ 1) :
    0 ≤ (bernsteinPolynomial ℝ n ν).eval x := by
  rw [bernstein_eval]
  have h2 : (0 : ℝ) ≤ 1 - x := by linarith
  exact mul_nonneg (mul_nonneg (by positivity) (pow_nonneg h0 _)) (pow_nonneg h2 _)

/-- Abel-summation identity used to regroup the derivative of a Bernstein
combination by coefficient increments. -/
theorem telescope_sum (p : ℕ) (a g : ℕ → ℝ) :
    (∑ ν in Finset.range p, a (ν + 1) * (g ν - g (ν + 1))) - a 0 * g 0 =
      (∑ ν in Finset.range p, (a (ν + 1) - a ν) * g ν) - a p * g p := by
  induction p with
  | zero => simp
  | succ n ih =>
    rw [Finset.sum_range_succ, Finset.sum_range_succ]
    linear_combination ih

/-- The derivative of a Bernstein combination with non-decreasing
coefficients is non-negative on the unit interval. -/
theorem deriv_comb_eval_nonneg (p : ℕ) (α : ℕ → ℝ) (hα : ∀ ν, α ν ≤ α (ν + 1))
    {x : ℝ} (h0 : 0 ≤ x) (h1 : x ≤ 1) :
    0 ≤ (Polynomial.derivative (∑ j in Finset.range (p + 1),
      Polynomial.C (α j) * bernsteinPolynomial ℝ p j)).eval x := by
  cases p with
  | zero =>
    simp [bernsteinPolynomial]
  | succ m =>
    have hstep : (Polynomial.derivative (∑ j in Finset.range (m + 2),
        Polynomial.C (α j) * bernsteinPolynomial ℝ (m + 1) j)).eval x =
        ∑ j in Finset.range (m + 2),
          α j * (Polynomial.derivative (bernsteinPolynomial ℝ (m + 1) j)).eval x := by
      rw [map_sum, Polynomial.eval_finset_sum]
      refine Finset.sum_congr rfl fun j _ => ?_
      rw [Polynomial.derivative_C_mul, Polynomial.eval_mul, Polynomial.eval_C]
    have hsucc : ∀ i : ℕ,
        (Polynomial.derivative (bernsteinPolynomial ℝ (m + 1) (i + 1))).eval x =
        (m + 1 : ℝ) * ((bernsteinPolynomial ℝ m i).eval x -
          (bernsteinPolynomial ℝ m (i + 1)).eval x) := by
      intro i
      rw [bernsteinPolynomial.derivative_succ]
      simp [Nat.add_sub_cancel]
    have hzero : (Polynomial.derivative (bernsteinPolynomial ℝ (m + 1) 0)).eval x =
        -(m + 1 : ℝ) * (bernsteinPolynomial ℝ m 0).eval x := by
      rw [bernsteinPolynomial.derivative_zero]
      simp [Nat.add_sub_cancel]
    rw [hstep, Finset.sum_range_succ']
    have hcg : ∀ i ∈ Finset.range (m + 1),
        α (i + 1) * (Polynomial.derivative (bernsteinPolynomial ℝ (m + 1) (i + 1))).eval x
        = (m + 1 : ℝ) * (α (i + 1) * ((bernsteinPolynomial ℝ m i).eval x -
            (bernsteinPolynomial ℝ m (i + 1)).eval x)) := by
      intro i _
      rw [hsucc]; ring
    rw [Finset.sum_congr rfl hcg, hzero, ← Finset.mul_sum]
    have hgp : (bernsteinPolynomial ℝ m (m + 1)).eval x = 0 := by
      rw [bernsteinPolynomial.eq_zero_of_lt ℝ (Nat.lt_succ_self m)]
      simp
    have htel := telescope_sum (m + 1) α (fun i => (bernsteinPolynomial ℝ m i).eval x)
    simp only [hgp, mul_zero, sub_zero] at htel
    have key : (m + 1 : ℝ) * (∑ ν in Finset.range (m + 1),
          α (ν + 1) * ((bernsteinPolynomial ℝ m ν).eval x -
            (bernsteinPolynomial ℝ m (ν + 1)).eval x))
        + α 0 * (-(m + 1 : ℝ) * (bernsteinPolynomial ℝ m 0).eval x)
        = (m + 1 : ℝ) * (∑ ν in Finset.range (m + 1),
            (α (ν + 1) - α ν) * (bernsteinPolynomial ℝ m ν).eval x) := by
      linear_combination (m + 1 : ℝ) * htel
    rw [key]
    apply mul_nonneg (by positivity)
    apply Finset.sum_nonneg
    intro ν _
    exact mul_nonneg (sub_nonneg.mpr (hα ν)) (bernstein_eval_nonneg m ν h0 h1)

/-- A Bernstein combination with non-decreasing coefficients is monotone on
the unit interval. -/
theorem comb_monotoneOn (p : ℕ) (α : ℕ → ℝ) (hα : ∀ ν, α ν ≤ α (ν + 1)) :
    MonotoneOn (fun t : ℝ => (∑ j in Finset.range (p + 1),
      Polynomial.C (α j) * bernsteinPolynomial ℝ p j).eval t) (Set.Icc 0 1) := by
  apply monotoneOn_of_deriv_nonneg (convex_Icc 0 1)
  · exact (Polynomial.continuous _).continuousOn
  · exact (Polynomial.differentiable _).differentiableOn
  · intro x hx
    rw [interior_Icc, Set.mem_Ioo] at hx
    rw [Polynomial.deriv]
    exact deriv_comb_eval_nonneg p α hα hx.1.le hx.2.le

/-- The rational Bernstein quantile reconstruction agrees with the real
polynomial evaluation. -/
theorem bern_quants_cast (p : ℕ) (α : ℕ → ℚ) (t : ℚ) :
    ((bern_quants p α t : ℚ) : ℝ) = (∑ j in Finset.range (p + 1),
      Polynomial.C ((α j : ℝ)) * bernsteinPolynomial ℝ p j).eval (t : ℝ) := by
  rw [Polynomial.eval_finset_sum, bern_quants]
  push_cast
  refine Finset.sum_congr rfl fun j _ => ?_
  rw [Polynomial.eval_mul, Polynomial.eval_C, bernstein_eval]

/-- Two-point monotonicity of the reconstruction after the cumulative sum. -/
theorem bqn_two_point (p : ℕ) (raw : ℕ → ℚ)
    (hraw : ∀ i, 1 ≤ i → 0 ≤ raw i) {s t : ℚ}
    (hs : 0 ≤ s) (hst : s ≤ t) (ht : t ≤ 1) :
    bern_quants p (npCumsum raw) s ≤ bern_quants p (npCumsum raw) t := by
  have hα : ∀ ν : ℕ, ((npCumsum raw ν : ℚ) : ℝ) ≤ ((npCumsum raw (ν + 1) : ℚ) : ℝ) := by
    intro ν
    rw [Rat.cast_le]
    have hstep : npCumsum raw (ν + 1) = npCumsum raw ν + raw (ν + 1) :=
      Finset.sum_range_succ raw (ν + 1)
    have := hraw (ν + 1) (by omega)
    rw [hstep]
    linarith
  have hmono := comb_monotoneOn p (fun ν => ((npCumsum raw ν : ℚ) : ℝ)) hα
  have h1 : ((s : ℚ) : ℝ) ∈ Set.Icc (0 : ℝ) 1 :=
    ⟨by exact_mod_cast hs, by exact_mod_cast hst.trans ht⟩
  have h2 : ((t : ℚ) : ℝ) ∈ Set.Icc (0 : ℝ) 1 :=
    ⟨by exact_mod_cast hs.trans hst, by exact_mod_cast ht⟩
  have h3 := hmono h1 h2 (by exact_mod_cast hst)
  have h4 : ((bern_quants p (npCumsum raw) s : ℚ) : ℝ) ≤
      ((bern_quants p (npCumsum raw) t : ℚ) : ℝ) := by
    rw [bern_quants_cast, bern_quants_cast]
    exact h3
  exact_mod_cast h4

/-- C4: for every predicted coefficient vector whose increments after the
first coefficient are non-negative (the softplus output activation of
`_get_architecture` enforces this), the BQN quantile forecast of
`get_results` - cumulative sum of the coefficients, then dot product with
the Bernstein basis at non-decreasing quantile levels in the unit interval -
is non-decreasing across the quantile levels: no quantile crossing. -/
theorem bqn_forecast_monotone (p : ℕ) (raw : ℕ → ℚ)
    (hraw : ∀ i, 1 ≤ i → 0 ≤ raw i) (levels : List ℚ)
    (hlev : ∀ x ∈ levels, 0 ≤ x ∧ x ≤ 1)
    (hsorted : levels.Sorted (· ≤ ·)) :
    (bqn_forecast p raw levels).Sorted (· ≤ ·) := by
  rw [bqn_forecast, List.Sorted, List.pairwise_map]
  refine List.Pairwise.imp_of_mem ?_ hsorted
  intro a b ha hb hab
  exact bqn_two_point p raw hraw (hlev a ha).1 hab (hlev b hb).2

/-- C4 witness: a concrete coefficient vector with unit increments yields a
sorted forecast on the grid `[0, 1/2, 1]`. -/
theorem bqn_forecast_monotone_witness :
    (bqn_forecast 2 (fun _ => 1) [0, 1/2, 1]).Sorted (· ≤ ·) :=
  bqn_forecast_monotone 2 (fun _ => 1) (fun i hi => by norm_num) [0, 1/2, 1]
    (by intro x hx; fin_cases hx <;> norm_num)
    (by simp [List.sorted_cons]; norm_num)
